import Mathlib

/-!
Verification development for the pull-request-comment-resolver repository.

Strings of the TypeScript source are modelled as Lean `String`s, with the
character-level operations (splitting on a newline, joining with a newline,
substring search) given by executable structural definitions on `String.data`.
JavaScript numbers that hold line indices are modelled as `Int`; JavaScript
truthiness of optional strings and numbers is modelled explicitly.
-/

set_option linter.unusedVariables false

/-- Splits a character list at every newline character, mirroring the
JavaScript `String.prototype.split("\n")`: the result is always non-empty,
and splitting the empty string yields one empty piece. -/
def splitNl : List Char → List (List Char)
  | [] => [[]]
  | c :: cs =>
    if c = '\n' then [] :: splitNl cs
    else
      match splitNl cs with
      | [] => [[c]]
      | h :: t => (c :: h) :: t

/-- Joins line pieces with a newline character, mirroring
`Array.prototype.join("\n")`. -/
def joinNl : List (List Char) → List Char
  | [] => []
  | [l] => l
  | l :: l' :: ls => l ++ '\n' :: joinNl (l' :: ls)

/-- JavaScript `Array.prototype.slice(b, e)` semantics: negative indices count
from the end, both indices are clamped to `[0, length]`, and the element at the
end index is excluded. -/
def jsSlice {α : Type} (l : List α) (b e : Int) : List α :=
  let len : Int := l.length
  let b' : Int := if b < 0 then max 0 (len + b) else min b len
  let e' : Int := if e < 0 then max 0 (len + e) else min e len
  (l.drop b'.toNat).take (e' - b').toNat

/-- Index of the first occurrence of `pat` as a contiguous sublist of `l`,
mirroring JavaScript `String.prototype.indexOf`. -/
def findSub (pat : List Char) : List Char → Option Nat
  | [] => if pat.isEmpty then some 0 else none
  | c :: rest =>
    if pat.isPrefixOf (c :: rest) then some 0
    else (findSub pat rest).map (· + 1)

/-- JavaScript `String.prototype.includes`: `s` contains `pat` as a substring. -/
def jsIncludes (s pat : String) : Bool :=
  (findSub pat.data s.data).isSome

/-- JavaScript whitespace test used by `String.prototype.trim`. -/
def jsWhitespace (c : Char) : Bool :=
  c = ' ' || c = '\t' || c = '\n' || c = '\r' || c = '\x0b' || c = '\x0c'

/-- JavaScript `String.prototype.trim`: removes whitespace from both ends. -/
def jsTrim (s : String) : String :=
  String.mk (((s.data.dropWhile jsWhitespace).reverse.dropWhile jsWhitespace).reverse)

/-- Truthiness of an optional JavaScript string: absent and empty are falsy. -/
def jsStrTruthy : Option String → Bool
  | none => false
  | some s => s ≠ ""

/-- Truthiness of an optional JavaScript number: absent and zero are falsy. -/
def jsIntTruthy : Option Int → Bool
  | none => false
  | some n => n ≠ 0

/-- Truthiness of a JavaScript object reference that is known to be an
object: always true. -/
def jsObjTruthy {α : Type} (x : α) : Bool := true

/-- Number of lines before and after a commented line to fetch for context
(`MAX_CONTEXT_LINES` in `main.ts`). -/
def MAX_CONTEXT_LINES : Int := 20

/-- `getCodeContext(fileContent, lineNumber, maxLines)` from `main.ts`:
fetches a window of lines around `lineNumber` (1-indexed), returning the empty
string when the file text is empty, the line number is non-positive, or the
target index falls outside the file. -/
def getCodeContext (fileContent : String) (lineNumber : Int) (maxLines : Int) : String :=
  if fileContent = "" ∨ lineNumber ≤ 0 then ""
  else
    let lines := splitNl fileContent.data
    let targetLineIndex := lineNumber - 1
    if targetLineIndex < 0 ∨ (lines.length : Int) ≤ targetLineIndex then ""
    else
      let startLine := max 0 (targetLineIndex - maxLines)
      let endLine := min ((lines.length : Int) - 1) (targetLineIndex + maxLines)
      String.mk (joinNl (jsSlice lines startLine (endLine + 1)))

/-- `getOriginalCode(startLine, endLine, fileContent)` from `main.ts`: the
verbatim lines `[startLine, endLine]` (1-indexed, inclusive), or the empty
string when the bounds check fails. -/
def getOriginalCode (startLine endLine : Int) (fileContent : String) : String :=
  let lines := splitNl fileContent.data
  let startLineIndex := startLine - 1
  let endLineIndex := endLine - 1
  if startLineIndex < 0 ∨ (lines.length : Int) ≤ endLineIndex then ""
  else String.mk (joinNl (jsSlice lines startLineIndex (endLineIndex + 1)))

/-- `Comment` from `VersionControlService.ts`, as used by `main.ts`: the
platform-native id is numeric here, the file path and the 1-indexed line
numbers are optional. -/
structure Comment where
  id : Nat
  body : String
  filePath : Option String
  endLineNumber : Option Int
  startLineNumber : Option Int
deriving DecidableEq, Repr

/-- `PullRequestDetails` from `VersionControlService.ts`. -/
structure PullRequestDetails where
  owner : String
  repo : String
  pullNumber : Nat
  headRef : Option String
  baseRef : Option String
deriving DecidableEq, Repr

/-- `FileContent` from `VersionControlService.ts` (the encoding field is
always normalized to utf-8 by the adapters and is dropped here). -/
structure FileContent where
  path : String
  content : String
deriving DecidableEq, Repr

/-- `LlmPromptPayload` from `LlmService.ts`, as assembled by
`processComment` in `main.ts`. -/
structure LlmPromptPayload where
  reviewerComment : String
  codeContext : String
  filePath : String
  originalCode : String
  language : Option String
  projectRules : Option String
deriving DecidableEq, Repr

/-- `LlmSuggestion` (the `SuggestionResult`): suggestion markdown, optional
rationale and optional error indicator. -/
structure LlmSuggestion where
  suggestionMarkdown : String
  rationale : Option String
  error : Option String
deriving DecidableEq, Repr

/-- The version-control adapter operations `processComment` uses, modelled as
pure functions; a thrown exception is an `Except.error` carrying the message. -/
structure VcsAdapter where
  getFileContent : String → Option String → Except String FileContent
  postSuggestionComment : Nat → String → Option String → Except String Unit

/-- The suggestion-generator adapter `processComment` uses; the returned
promise may reject, modelled as `Except.error`. -/
structure LlmAdapter where
  generateSuggestion : LlmPromptPayload → Except String LlmSuggestion

/-- One adapter operation performed during the processing of a comment. -/
inductive AdapterCall
  | getFile (path : String) (ref : Option String)
  | generate (payload : LlmPromptPayload)
  | post (id : Nat) (suggestion : String) (explanation : Option String)
deriving DecidableEq, Repr

/-- Terminal state of one comment's run through the pipeline. -/
inductive Outcome
  | Skipped
  | Posted
  | Failed
deriving DecidableEq, Repr

/-- Whether a trace contains a call to the posting operation. -/
def hasPost (trace : List AdapterCall) : Bool :=
  trace.any fun a =>
    match a with
    | .post _ _ _ => true
    | _ => false

/-- The validation gate condition of `processComment` (`main.ts` line 142):
the result carries a truthy error indicator, or its markdown lacks the fenced
"suggestion" marker. -/
def badSuggestion (r : LlmSuggestion) : Bool :=
  jsStrTruthy r.error || !(jsIncludes r.suggestionMarkdown "```suggestion")

/-- The explanation string `processComment` passes to the posting operation:
the rationale prefixed with "Rationale: " when the rationale is truthy. -/
def suggestionExplanation (r : LlmSuggestion) : Option String :=
  if jsStrTruthy r.rationale then some ("Rationale: " ++ r.rationale.getD "")
  else none

/-- The comment-eligibility test of `main.ts` (lines 85 and 246): JavaScript
truthiness of `comment.filePath && comment.endLineNumber`. -/
def commentEligible (c : Comment) : Bool :=
  jsStrTruthy c.filePath && jsIntTruthy c.endLineNumber

/-- `processComment` from `main.ts`: eligibility check, file fetch (failure
caught, leaving the context empty), context validity check, exact-slice
extraction, payload assembly, generation (failure NOT caught: it propagates),
validation gate, and the guarded post. Returns the adapter-call trace and
either the terminal outcome or the escaping exception. -/
def processComment (vcs : VcsAdapter) (llm : LlmAdapter)
    (prDetails : PullRequestDetails) (comment : Comment) :
    List AdapterCall × Except String Outcome :=
  if !(commentEligible comment) then ([], .ok .Skipped)
  else
    let filePath := comment.filePath.getD ""
    let endLineNumber := comment.endLineNumber.getD 0
    match vcs.getFileContent filePath prDetails.headRef with
    | .error _ =>
      ([.getFile filePath prDetails.headRef], .ok .Skipped)
    | .ok fileContent =>
      let codeContext := getCodeContext fileContent.content endLineNumber MAX_CONTEXT_LINES
      if codeContext = "" then
        ([.getFile filePath prDetails.headRef], .ok .Skipped)
      else
        let originalCode :=
          getOriginalCode (comment.startLineNumber.getD endLineNumber) endLineNumber
            fileContent.content
        let payload : LlmPromptPayload :=
          { reviewerComment := comment.body
            codeContext := codeContext
            filePath := filePath
            originalCode := originalCode
            language := none
            projectRules := none }
        match llm.generateSuggestion payload with
        | .error e =>
          ([.getFile filePath prDetails.headRef, .generate payload], .error e)
        | .ok suggestionResult =>
          if badSuggestion suggestionResult then
            ([.getFile filePath prDetails.headRef, .generate payload], .ok .Failed)
          else
            let explanation := suggestionExplanation suggestionResult
            let trace :=
              [.getFile filePath prDetails.headRef, .generate payload,
               .post comment.id suggestionResult.suggestionMarkdown explanation]
            match vcs.postSuggestionComment comment.id
                suggestionResult.suggestionMarkdown explanation with
            | .error _ => (trace, .ok .Failed)
            | .ok _ => (trace, .ok .Posted)

/-- The comment loop of `main` in `main.ts`: eligible comments go through
`processComment`; ineligible ones are logged and skipped. An exception
escaping `processComment` reaches the surrounding catch and aborts the run,
leaving the remaining comments unprocessed. -/
def runBatch (vcs : VcsAdapter) (llm : LlmAdapter) (prDetails : PullRequestDetails) :
    List Comment → Except String (List Outcome)
  | [] => .ok []
  | c :: cs =>
    if commentEligible c then
      match (processComment vcs llm prDetails c).2 with
      | .error e => .error e
      | .ok o =>
        match runBatch vcs llm prDetails cs with
        | .error e => .error e
        | .ok os => .ok (o :: os)
    else
      match runBatch vcs llm prDetails cs with
      | .error e => .error e
      | .ok os => .ok (.Skipped :: os)

/-- The regex `/```suggestion\n([\s\S]*?)\n```/` of
`AzureOpenAiLlmService.generateSuggestion`, applied to the response text:
the full match (`suggestionMatch[0]`) runs from the first occurrence of the
opening fence to the first closing fence after it. Returns `none` when the
regex does not match. -/
def extractFencedSuggestion (responseText : String) : Option String :=
  match findSub "```suggestion\n".data responseText.data with
  | none => none
  | some i =>
    match findSub "\n```".data
        (responseText.data.drop (i + "```suggestion\n".data.length)) with
    | none => none
    | some j =>
      some (String.mk ((responseText.data.drop i).take
        ("```suggestion\n".data.length + j + "\n```".data.length)))

/-- The regex `/Rationale: (.*)/` of `AzureOpenAiLlmService.generateSuggestion`:
the capture group is the text after the first occurrence of "Rationale: " up
to the next line terminator. -/
def extractRationale (responseText : String) : Option String :=
  match findSub "Rationale: ".data responseText.data with
  | none => none
  | some i =>
    some (String.mk ((responseText.data.drop (i + "Rationale: ".data.length)).takeWhile
      (fun c => !(c = '\n' || c = '\r'))))

/-- The response-parsing half of `AzureOpenAiLlmService.generateSuggestion`
(`AzureOpenAiLlmService.ts` lines 111 to 136), applied to a successfully
received response text. -/
def azureParseResponse (responseText : String) : LlmSuggestion :=
  match extractFencedSuggestion responseText with
  | some m =>
    { suggestionMarkdown := m
      rationale := some
        (match extractRationale responseText with
         | some r => jsTrim r
         | none => "No rationale provided.")
      error := none }
  | none =>
    { suggestionMarkdown := "```suggestion\n// LLM response was not in the expected format.\n```"
      rationale := some "Could not parse suggestion from LLM response."
      error := some "LLM response parsing failed." }

/-- `AzureOpenAiLlmService.generateSuggestion`: the transport call either
yields a response text, which is parsed, or throws, which the catch block
converts into an error result; the function itself never throws. The
transport outcome is the argument. -/
def AzureOpenAiLlmService.generateSuggestion (transport : Except String String) :
    LlmSuggestion :=
  match transport with
  | .ok responseText => azureParseResponse responseText
  | .error msg =>
    { suggestionMarkdown := "```suggestion\n// Error occurred while generating suggestion.\n```"
      rationale := some "Failed to generate suggestion due to an internal error."
      error := some (if msg = "" then "Unknown error during LLM suggestion generation." else msg) }

/-- A note of a GitLab discussion thread; the position payload is opaque. -/
structure DiscussionNote where
  body : String
  position : Option String
deriving DecidableEq, Repr

/-- A GitLab discussion thread as returned by `MergeRequestDiscussions.show`. -/
structure DiscussionThread where
  notes : List DiscussionNote
deriving DecidableEq, Repr

/-- The discussion created by `MergeRequestDiscussions.create`: its body and
the position option passed along. -/
structure CreatedDiscussion where
  body : String
  position : Option String
deriving DecidableEq, Repr

/-- `GitLabService.postSuggestionComment` (`GitLabService.ts`): fetches the
original discussion thread (given here as `thread`), takes its first note,
branches on `if (originalDiscussionThread)` — the truthiness of the fetched
object, which is always true — and creates a new discussion from
`newDiscussionNote.body` with the first note's position. -/
def GitLabService.postSuggestionComment (thread : DiscussionThread)
    (replyToCommentId : Nat) (suggestion : String) (explanation : Option String) :
    Except String CreatedDiscussion :=
  let discussionBody :=
    match explanation with
    | some e => e ++ "\n" ++ suggestion
    | none => suggestion
  match thread.notes.head? with
  | none =>
    .error ("No original discussion thread found for comment ID "
      ++ toString replyToCommentId ++ ".")
  | some firstThreadNote =>
    let newNoteBody :=
      if jsObjTruthy thread then firstThreadNote.body
      else "Replying to (or inspired by) comment ID " ++ toString replyToCommentId
        ++ ":\n" ++ discussionBody
    .ok { body := newNoteBody, position := firstThreadNote.position }

/-- The reply body assembled by `GitHubService.postSuggestionComment`
(`GitHubService.ts` lines 224 to 227): the explanation, when present, is
prepended to the suggestion with a newline. -/
def postedBody (suggestion : String) (explanation : Option String) : String :=
  match explanation with
  | some e => e ++ "\n" ++ suggestion
  | none => suggestion

/-- Concrete pull-request details used by the concrete scenarios. -/
def prFixture : PullRequestDetails :=
  { owner := "felixAnhalt"
    repo := "pull-request-comment-resolver"
    pullNumber := 1
    headRef := some "feature"
    baseRef := some "main" }

/-- A five-line file text used by the concrete scenarios. -/
def fileFixture : String := "l1\nl2\nl3\nl4\nl5"

/-- An adapter whose file reads always succeed and whose posts succeed. -/
def vcsAllOk : VcsAdapter :=
  { getFileContent := fun path _ => .ok { path := path, content := fileFixture }
    postSuggestionComment := fun _ _ _ => .ok () }

/-- An adapter whose read of "a.ts" throws while other reads succeed;
posts succeed. -/
def vcsFirstReadThrows : VcsAdapter :=
  { getFileContent := fun path _ =>
      if path = "a.ts" then .error "boom"
      else .ok { path := path, content := fileFixture }
    postSuggestionComment := fun _ _ _ => .ok () }

/-- A generator that always returns a well-formed suggestion result. -/
def llmWellFormed : LlmAdapter :=
  { generateSuggestion := fun _ =>
      .ok { suggestionMarkdown := "```suggestion\nfix\n```"
            rationale := some "tidy"
            error := none } }

/-- The Azure generator wired to a transport that returns the response
"no suggestion here" (end-to-end scenario C). -/
def llmAzureNoBlock : LlmAdapter :=
  { generateSuggestion := fun _ =>
      .ok (AzureOpenAiLlmService.generateSuggestion (.ok "no suggestion here")) }

/-- First comment of the two-comment batch scenarios, on file "a.ts". -/
def commentOnA : Comment :=
  { id := 1, body := "first", filePath := some "a.ts", endLineNumber := some 2,
    startLineNumber := none }

/-- Second comment of the two-comment batch scenarios, on file "b.ts". -/
def commentOnB : Comment :=
  { id := 2, body := "second", filePath := some "b.ts", endLineNumber := some 2,
    startLineNumber := none }

/-- The comment used by the scenario-C witness, on file "c.ts" line 1. -/
def commentOnC : Comment :=
  { id := 3, body := "please fix", filePath := some "c.ts", endLineNumber := some 1,
    startLineNumber := none }

/-- The prompt payload `processComment` assembles for `commentOnC` against
`fileFixture`. -/
def payloadForC : LlmPromptPayload :=
  { reviewerComment := "please fix"
    codeContext := fileFixture
    filePath := "c.ts"
    originalCode := "l1"
    language := none
    projectRules := none }

/-- A generator that throws for the comment on "a.ts" and returns a
well-formed result for every other payload. -/
def llmThrowsOnFirst : LlmAdapter :=
  { generateSuggestion := fun p =>
      if p.filePath = "a.ts" then .error "network failure"
      else .ok { suggestionMarkdown := "```suggestion\nfix\n```"
                 rationale := some "tidy"
                 error := none } }

/-- The comment of end-to-end scenario B: no file path, line number 5. -/
def commentNoPath : Comment :=
  { id := 4, body := "where?", filePath := none, endLineNumber := some 5,
    startLineNumber := none }

/-- A well-formed model response with one fenced suggestion block and one
rationale line. -/
def wellFormedResp : String := "```suggestion\nconst x = 1;\n```\nRationale: tidy"

/-- A model response whose rationale line carries a trailing space. -/
def trailingSpaceResp : String := "```suggestion\nx\n```\nRationale: ok "

/-- A GitLab discussion thread whose only note has no position. -/
def threadNoPosition : DiscussionThread :=
  { notes := [{ body := "original note text", position := none }] }

/- ### Helper lemmas -/

theorem splitNl_ne_nil (l : List Char) : splitNl l ≠ [] := by
  induction l with
  | nil => simp [splitNl]
  | cons c cs ih =>
    simp only [splitNl]
    split
    · simp
    · split
      · simp
      · simp

theorem splitNl_cons_newline (cs : List Char) :
    splitNl ('\n' :: cs) = [] :: splitNl cs := rfl

theorem splitNl_cons_other {c : Char} (cs : List Char) (hc : ¬ c = '\n') :
    splitNl (c :: cs) = match splitNl cs with
      | [] => [[c]]
      | h :: t => (c :: h) :: t := by
  simp only [splitNl, if_neg hc]

theorem no_newline_of_mem_splitNl {l p : List Char} (hp : p ∈ splitNl l) : '\n' ∉ p := by
  induction l generalizing p with
  | nil =>
    simp only [splitNl, List.mem_singleton] at hp
    subst hp
    simp
  | cons c cs ih =>
    by_cases hc : c = '\n'
    · subst hc
      rw [splitNl_cons_newline] at hp
      rcases List.mem_cons.mp hp with hq | hq
      · subst hq; simp
      · exact ih hq
    · rw [splitNl_cons_other _ hc] at hp
      rcases hsp : splitNl cs with _ | ⟨h1, t1⟩
      · exact absurd hsp (splitNl_ne_nil cs)
      · rw [hsp] at hp
        rcases List.mem_cons.mp hp with hq | hq
        · subst hq
          intro hmem
          rcases List.mem_cons.mp hmem with hr | hr
          · exact hc hr.symm
          · exact ih (hsp ▸ List.mem_cons_self h1 t1) hr
        · exact ih (hsp ▸ List.mem_cons_of_mem h1 hq)

theorem splitNl_of_no_newline {l : List Char} (h : '\n' ∉ l) : splitNl l = [l] := by
  induction l with
  | nil => rfl
  | cons c cs ih =>
    have hc : ¬ c = '\n' := fun hh => h (hh ▸ List.mem_cons_self c cs)
    have hcs : '\n' ∉ cs := fun hh => h (List.mem_cons_of_mem c hh)
    rw [splitNl_cons_other _ hc, ih hcs]

theorem splitNl_append_newline {l r : List Char} (h : '\n' ∉ l) :
    splitNl (l ++ '\n' :: r) = l :: splitNl r := by
  induction l with
  | nil => simpa using splitNl_cons_newline r
  | cons c cs ih =>
    have hc : ¬ c = '\n' := fun hh => h (hh ▸ List.mem_cons_self c cs)
    have hcs : '\n' ∉ cs := fun hh => h (List.mem_cons_of_mem c hh)
    rw [List.cons_append, splitNl_cons_other _ hc, ih hcs]

theorem splitNl_joinNl : ∀ {ls : List (List Char)}, ls ≠ [] →
    (∀ l ∈ ls, '\n' ∉ l) → splitNl (joinNl ls) = ls
  | [], h, _ => absurd rfl h
  | [l], _, hnl => by
    simp only [joinNl]
    exact splitNl_of_no_newline (hnl l (List.mem_singleton.mpr rfl))
  | l :: l' :: ls, _, hnl => by
    simp only [joinNl]
    rw [splitNl_append_newline (hnl l (List.mem_cons_self l (l' :: ls)))]
    congr 1
    exact splitNl_joinNl (by simp) (fun x hx => hnl x (List.mem_cons_of_mem l hx))

theorem findSub_prefix {pat l : List Char} {i : Nat} (h : findSub pat l = some i) :
    pat <+: l.drop i := by
  induction l generalizing i with
  | nil =>
    simp only [findSub] at h
    split at h
    · rename_i hemp
      cases h
      simp_all [List.isEmpty_iff]
    · cases h
  | cons c rest ih =>
    simp only [findSub] at h
    split at h
    · rename_i hp
      cases h
      simpa using List.isPrefixOf_iff_prefix.mp hp
    · rcases Option.map_eq_some'.mp h with ⟨j, hj, rfl⟩
      simpa using ih hj

theorem findSub_of_prefix {pat l : List Char} (hne : pat ≠ []) (h : pat <+: l) :
    findSub pat l = some 0 := by
  cases l with
  | nil => exact absurd (List.prefix_nil.mp h) hne
  | cons c rest =>
    simp only [findSub, if_pos (List.isPrefixOf_iff_prefix.mpr h)]

theorem findSub_isSome_of_infix {pat l : List Char} (h : pat <:+: l) :
    (findSub pat l).isSome = true := by
  induction l with
  | nil =>
    have he : pat = [] := List.infix_nil.mp h
    subst he
    simp [findSub]
  | cons c rest ih =>
    by_cases hp : pat.isPrefixOf (c :: rest)
    · simp [findSub, hp]
    · rcases List.infix_cons_iff.mp h with h1 | h1
      · exact absurd (List.isPrefixOf_iff_prefix.mpr h1) hp
      · simp only [findSub, if_neg hp, Option.isSome_map']
        exact ih h1

theorem jsIncludes_of_infix {s pat : String} (h : pat.data <:+: s.data) :
    jsIncludes s pat = true := by
  simpa [jsIncludes] using findSub_isSome_of_infix h

theorem prefix_take_of_le {α : Type} {p l : List α} {k : Nat}
    (h : p <+: l) (hk : p.length ≤ k) : p <+: l.take k := by
  rcases h with ⟨t, rfl⟩
  rw [List.take_append_eq_append_take, List.take_of_length_le hk]
  exact List.prefix_append p _

theorem extractFenced_shape {resp m : String}
    (h : extractFencedSuggestion resp = some m) :
    "```suggestion".data <+: m.data ∧ m.data <:+: resp.data := by
  unfold extractFencedSuggestion at h
  rcases hfo : findSub "```suggestion\n".data resp.data with _ | i
  · rw [hfo] at h; cases h
  · rw [hfo] at h
    dsimp only at h
    rcases hfc : findSub "\n```".data
        (resp.data.drop (i + "```suggestion\n".data.length)) with _ | j
    · rw [hfc] at h; cases h
    · rw [hfc] at h
      dsimp only at h
      cases h
      constructor
      · have hopen : "```suggestion\n".data <+: resp.data.drop i := findSub_prefix hfo
        have h1 : "```suggestion\n".data <+:
            (resp.data.drop i).take
              ("```suggestion\n".data.length + j + "\n```".data.length) :=
          prefix_take_of_le hopen (by omega)
        exact List.IsPrefix.trans ⟨['\n'], by decide⟩ h1
      · exact (List.take_prefix _ _).isInfix.trans (List.drop_suffix _ _).isInfix

theorem data_mk (l : List Char) : (String.mk l).data = l := rfl

theorem jsSlice_eq_take_drop {α : Type} (l : List α) (b e : Int)
    (hb : 0 ≤ b) (he : 0 ≤ e) :
    jsSlice l b e = (l.drop b.toNat).take (e.toNat - b.toNat) := by
  unfold jsSlice
  dsimp only
  rw [if_neg (by omega), if_neg (by omega)]
  by_cases hbl : b ≤ (l.length : Int)
  · rw [min_eq_left hbl]
    by_cases hel : e ≤ (l.length : Int)
    · rw [min_eq_left hel]
      congr 1
      omega
    · rw [min_eq_right (le_of_not_le hel)]
      rw [List.take_of_length_le (by rw [List.length_drop]; omega),
        List.take_of_length_le (by rw [List.length_drop]; omega)]
  · have hlb : (l.length : Int) ≤ b := le_of_not_le hbl
    rw [min_eq_right hlb]
    have h1 : ((l.length : Int)).toNat = l.length := by omega
    rw [h1, List.drop_length, List.drop_eq_nil_of_le (by omega)]
    simp

theorem window_slice_eq (L : List (List Char)) (t w : Nat)
    (h1 : 1 ≤ t) (h2 : t ≤ L.length) :
    jsSlice L (max 0 ((t : Int) - 1 - (w : Int)))
        (min ((L.length : Int) - 1) ((t : Int) - 1 + (w : Int)) + 1) =
      (L.take (min (L.length - 1) (t - 1 + w) + 1)).drop (t - 1 - w) := by
  have hb : (max 0 ((t : Int) - 1 - (w : Int))).toNat = t - 1 - w := by omega
  have he : (min ((L.length : Int) - 1) ((t : Int) - 1 + (w : Int)) + 1).toNat =
      min (L.length - 1) (t - 1 + w) + 1 := by omega
  rw [jsSlice_eq_take_drop _ _ _ (by omega) (by omega), hb, he, List.drop_take]

theorem getOriginalCode_in_range (fileText : String) (s e : Int)
    (h1 : 1 ≤ s) (h2 : 1 ≤ e) (h3 : e ≤ ((splitNl fileText.data).length : Int)) :
    getOriginalCode s e fileText =
      String.mk (joinNl (((splitNl fileText.data).take e.toNat).drop (s - 1).toNat)) := by
  unfold getOriginalCode
  dsimp only
  rw [if_neg (by omega)]
  have hee : e - 1 + 1 = e := by omega
  rw [hee, jsSlice_eq_take_drop _ _ _ (by omega) (by omega), List.drop_take]

theorem processComment_ok_of_llm_total (vcs : VcsAdapter) (llm : LlmAdapter)
    (pr : PullRequestDetails) (c : Comment)
    (h : ∀ p, (llm.generateSuggestion p).isOk = true) :
    ∃ o, (processComment vcs llm pr c).2 = .ok o := by
  unfold processComment
  dsimp only
  split
  · exact ⟨_, rfl⟩
  · split
    · exact ⟨_, rfl⟩
    · split
      · exact ⟨_, rfl⟩
      · split
        · rename_i e heq
          exfalso
          have hp := congrArg Except.isOk heq
          rw [h] at hp
          simp [Except.isOk, Except.toBool] at hp
        · rename_i sr heq
          split
          · exact ⟨_, rfl⟩
          · split
            · exact ⟨_, rfl⟩
            · exact ⟨_, rfl⟩

/- ### Claim theorems -/

/-- C1: whenever the pipeline generated a suggestion result for a comment and
that result carries a populated (truthy) error indicator or its markdown lacks
a fenced block tagged "suggestion", the comment's outcome is Failed and the
posting operation is never invoked for that comment. -/
theorem validation_gate_total :
    ∀ (vcs : VcsAdapter) (llm : LlmAdapter) (pr : PullRequestDetails) (c : Comment)
      (p : LlmPromptPayload) (r : LlmSuggestion),
      llm.generateSuggestion p = .ok r →
      badSuggestion r = true →
      AdapterCall.generate p ∈ (processComment vcs llm pr c).1 →
      (processComment vcs llm pr c).2 = .ok .Failed ∧
        hasPost (processComment vcs llm pr c).1 = false := by
  intro vcs llm pr c p r hgen hbad
  unfold processComment
  dsimp only
  split
  · simp
  · split
    · intro hmem
      simp at hmem
    · split
      · intro hmem
        simp at hmem
      · split
        · rename_i e heq
          intro hmem
          simp at hmem
          subst hmem
          rw [hgen] at heq
          cases heq
        · rename_i sr heq
          split
          · intro hmem
            exact ⟨rfl, rfl⟩
          · rename_i hnotbad
            split
            all_goals
            · intro hmem
              simp at hmem
              subst hmem
              rw [hgen] at heq
              cases heq
              exact absurd hbad hnotbad

/-- C1 witness: end-to-end scenario C — the model response "no suggestion
here" has no fenced block, the generator's result has a populated error, the
outcome is Failed and nothing is posted. -/
theorem validation_gate_witness :
    (processComment vcsAllOk llmAzureNoBlock prFixture commentOnC).2 = .ok .Failed ∧
    hasPost (processComment vcsAllOk llmAzureNoBlock prFixture commentOnC).1 = false ∧
    jsStrTruthy (AzureOpenAiLlmService.generateSuggestion (.ok "no suggestion here")).error
      = true := by
  have h := validation_gate_total vcsAllOk llmAzureNoBlock prFixture commentOnC payloadForC
    (AzureOpenAiLlmService.generateSuggestion (.ok "no suggestion here"))
    rfl (by decide) (by decide)
  exact ⟨h.1, h.2, by decide⟩

/-- C2 counterexample: a batch of two processable comments where the
generator's promise rejects for the first comment: the exception escapes the
batch driver and the second comment — which on its own completes with
outcome Posted — is never processed, so a failure at the generation step of
one comment does halt the processing of subsequent comments. -/
theorem batch_isolation_counterexample :
    runBatch vcsAllOk llmThrowsOnFirst prFixture [commentOnA, commentOnB] =
      .error "network failure" ∧
    runBatch vcsAllOk llmThrowsOnFirst prFixture [commentOnB] = .ok [.Posted] :=
  ⟨rfl, rfl⟩

/-- C2 (amended): provided the generator adapter never throws (its promise
always resolves, as the repository's own generator guarantees), a failure at
any other step — file read, validation, posting — is caught per comment and
the batch driver completes with exactly one outcome per comment; in
particular end-to-end scenario D holds: first comment's file read throws,
second posts, and the batch yields one Skipped and one Posted outcome. -/
theorem batch_isolation_amended :
    (∀ (vcs : VcsAdapter) (llm : LlmAdapter) (pr : PullRequestDetails)
      (comments : List Comment),
      (∀ p, (llm.generateSuggestion p).isOk = true) →
      ∃ outs, runBatch vcs llm pr comments = .ok outs ∧
        outs.length = comments.length) ∧
    runBatch vcsFirstReadThrows llmWellFormed prFixture [commentOnA, commentOnB] =
      .ok [.Skipped, .Posted] := by
  constructor
  · intro vcs llm pr comments h
    induction comments with
    | nil => exact ⟨[], rfl, rfl⟩
    | cons c cs ih =>
      rcases ih with ⟨outs, houts, hlen⟩
      by_cases he : commentEligible c = true
      · rcases processComment_ok_of_llm_total vcs llm pr c h with ⟨o, ho⟩
        refine ⟨o :: outs, ?_, by simp [hlen]⟩
        unfold runBatch
        rw [if_pos he, ho, houts]
      · refine ⟨.Skipped :: outs, ?_, by simp [hlen]⟩
        unfold runBatch
        rw [if_neg he, houts]
  · rfl

/-- C2 witness: the amended theorem applied to the concrete scenario-D batch. -/
theorem batch_isolation_witness :
    ∃ outs, runBatch vcsFirstReadThrows llmWellFormed prFixture [commentOnA, commentOnB] =
      .ok outs ∧ outs.length = 2 :=
  batch_isolation_amended.1 vcsFirstReadThrows llmWellFormed prFixture
    [commentOnA, commentOnB] (fun p => rfl)

/-- C6: a comment lacking a file path or lacking an end line number terminates
in Skipped with an empty adapter-call trace: no adapter operation is invoked
beyond the eligibility check, and the comment never reaches context
extraction. -/
theorem eligibility_filter_total :
    ∀ (vcs : VcsAdapter) (llm : LlmAdapter) (pr : PullRequestDetails) (c : Comment),
      c.filePath = none ∨ c.endLineNumber = none →
      processComment vcs llm pr c = ([], .ok .Skipped) := by
  intro vcs llm pr c h
  have he : commentEligible c = false := by
    rcases h with h | h <;> simp [commentEligible, jsStrTruthy, jsIntTruthy, h]
  unfold processComment
  rw [he]
  rfl

/-- C6 witness: end-to-end scenario B — the comment with no file path and end
line number 5 yields Skipped with no adapter calls. -/
theorem eligibility_filter_witness :
    processComment vcsAllOk llmWellFormed prFixture commentNoPath = ([], .ok .Skipped) :=
  eligibility_filter_total vcsAllOk llmWellFormed prFixture commentNoPath (Or.inl rfl)

/-- C7: the generator converts every failure into a result instead of
throwing — a successfully received response without a fenced "suggestion"
block yields the synthetic placeholder result with a populated error
indicator (the response-format failure), and a transport failure yields a
result whose error indicator is populated (the generation failure). -/
theorem azure_never_throws :
    (∀ responseText : String, extractFencedSuggestion responseText = none →
      AzureOpenAiLlmService.generateSuggestion (.ok responseText) =
        { suggestionMarkdown := "```suggestion\n// LLM response was not in the expected format.\n```"
          rationale := some "Could not parse suggestion from LLM response."
          error := some "LLM response parsing failed." }) ∧
    (∀ msg : String,
      jsStrTruthy (AzureOpenAiLlmService.generateSuggestion (.error msg)).error = true) := by
  constructor
  · intro resp h
    simp [AzureOpenAiLlmService.generateSuggestion, azureParseResponse, h]
  · intro msg
    by_cases hm : msg = ""
    · simp [AzureOpenAiLlmService.generateSuggestion, jsStrTruthy, hm]
    · simp [AzureOpenAiLlmService.generateSuggestion, jsStrTruthy, hm]

/-- C7 witness: the theorem applied to the response "no suggestion here" and
the transport failure "socket hang up". -/
theorem azure_never_throws_witness :
    AzureOpenAiLlmService.generateSuggestion (.ok "no suggestion here") =
      { suggestionMarkdown := "```suggestion\n// LLM response was not in the expected format.\n```"
        rationale := some "Could not parse suggestion from LLM response."
        error := some "LLM response parsing failed." } ∧
    jsStrTruthy (AzureOpenAiLlmService.generateSuggestion (.error "socket hang up")).error
      = true :=
  ⟨azure_never_throws.1 "no suggestion here" (by decide),
   azure_never_throws.2 "socket hang up"⟩

/-- C9: evaluation at the failing input — a reply whose original discussion
thread has no resolvable position. The `if (originalDiscussionThread)` branch
condition is the truthiness of the fetched thread object, which is always
true, so the intended no-position fallback is dead code: the created
discussion's body is the original note's body, referencing neither the
original comment's id nor the suggestion. -/
theorem gitlab_position_fallback_dead :
    GitLabService.postSuggestionComment threadNoPosition 42 "```suggestion\nfix\n```" none =
      .ok { body := "original note text", position := none } ∧
    jsIncludes "original note text" "comment ID" = false ∧
    jsIncludes "original note text" "```suggestion" = false :=
  ⟨rfl, by decide, by decide⟩

/-- C10: every result this generator returns — parsed, response-format
failure, or transport failure — carries the substring made of three backticks
followed by "suggestion" in its markdown, so the pipeline's fenced-marker
check never rejects such a result by itself and a result is gated from
posting exactly when its error indicator is populated. -/
theorem azure_results_carry_marker :
    ∀ transport : Except String String,
      jsIncludes (AzureOpenAiLlmService.generateSuggestion transport).suggestionMarkdown
          "```suggestion" = true ∧
        (badSuggestion (AzureOpenAiLlmService.generateSuggestion transport) = true ↔
          jsStrTruthy (AzureOpenAiLlmService.generateSuggestion transport).error = true) := by
  intro transport
  have key : ∀ r : LlmSuggestion, jsIncludes r.suggestionMarkdown "```suggestion" = true →
      (badSuggestion r = true ↔ jsStrTruthy r.error = true) := by
    intro r hr
    simp [badSuggestion, hr]
  cases transport with
  | error msg =>
    have h1 : jsIncludes "```suggestion\n// Error occurred while generating suggestion.\n```"
        "```suggestion" = true := by decide
    exact ⟨h1, key _ h1⟩
  | ok resp =>
    rcases hfs : extractFencedSuggestion resp with _ | m
    · have hres : AzureOpenAiLlmService.generateSuggestion (.ok resp) =
          { suggestionMarkdown := "```suggestion\n// LLM response was not in the expected format.\n```"
            rationale := some "Could not parse suggestion from LLM response."
            error := some "LLM response parsing failed." } := by
        simp [AzureOpenAiLlmService.generateSuggestion, azureParseResponse, hfs]
      rw [hres]
      exact ⟨by decide, key _ (by decide)⟩
    · have hres : AzureOpenAiLlmService.generateSuggestion (.ok resp) =
          { suggestionMarkdown := m
            rationale := some
              (match extractRationale resp with
               | some r => jsTrim r
               | none => "No rationale provided.")
            error := none } := by
        simp [AzureOpenAiLlmService.generateSuggestion, azureParseResponse, hfs]
      rw [hres]
      have hm : jsIncludes m "```suggestion" = true := by
        have hpre : "```suggestion".data <+: m.data := (extractFenced_shape hfs).1
        have : findSub "```suggestion".data m.data = some 0 :=
          findSub_of_prefix (by decide) hpre
        simp [jsIncludes, this]
      exact ⟨hm, key _ hm⟩


/-- C3: the context window — empty result exactly when the file text is
empty, the target line is non-positive, or the target line exceeds the line
count; otherwise the lines with zero-based indices from
max(0, targetLine-1-windowSize) through min(lineCount-1, targetLine-1+windowSize)
inclusive, joined by newline; in particular file text "a\nb\nc\nd\ne" with
target line 3 and window 1 gives "b\nc\nd". -/
theorem getCodeContext_window_spec :
    (∀ (fileText : String) (targetLine : Int) (windowSize : Nat),
      ((fileText = "" ∨ targetLine ≤ 0 ∨
          ((splitNl fileText.data).length : Int) < targetLine) →
        getCodeContext fileText targetLine windowSize = "") ∧
      (fileText ≠ "" → 1 ≤ targetLine →
        targetLine ≤ ((splitNl fileText.data).length : Int) →
        getCodeContext fileText targetLine windowSize =
          String.mk (joinNl (((splitNl fileText.data).take
              (min ((splitNl fileText.data).length - 1)
                ((targetLine - 1).toNat + windowSize) + 1)).drop
            ((targetLine - 1).toNat - windowSize))))) ∧
    getCodeContext "a\nb\nc\nd\ne" 3 1 = "b\nc\nd" := by
  constructor
  · intro fileText targetLine windowSize
    constructor
    · intro h
      unfold getCodeContext
      dsimp only
      split
      · rfl
      · rename_i h1
        split
        · rfl
        · rename_i h2
          exfalso
          rcases h with h | h | h
          · exact h1 (Or.inl h)
          · exact h1 (Or.inr h)
          · exact h2 (Or.inr (by omega))
    · intro hft ht1 ht2
      obtain ⟨tN, rfl⟩ : ∃ n : Nat, targetLine = (n : Int) :=
        ⟨targetLine.toNat, by omega⟩
      have e1 : (((tN : Int)) - 1).toNat = tN - 1 := by omega
      have hc1 : ¬(fileText = "" ∨ ((tN : Int)) ≤ 0) := by
        rintro (h | h)
        · exact hft h
        · omega
      have hc2 : ¬(((tN : Int)) - 1 < 0 ∨
          ((splitNl fileText.data).length : Int) ≤ ((tN : Int)) - 1) := by omega
      unfold getCodeContext
      dsimp only
      rw [if_neg hc1, if_neg hc2, e1,
        window_slice_eq (splitNl fileText.data) tN windowSize (by omega) (by omega)]
  · decide

/-- C3 witness: the guard case applied at empty file text, and the window
case applied at end-to-end scenario A. -/
theorem getCodeContext_window_witness :
    getCodeContext "" 1 1 = "" ∧
    getCodeContext "a\nb\nc\nd\ne" 3 1 =
      String.mk (joinNl (((splitNl ("a\nb\nc\nd\ne" : String).data).take
          (min ((splitNl ("a\nb\nc\nd\ne" : String).data).length - 1)
            (((3 : Int) - 1).toNat + 1) + 1)).drop
        (((3 : Int) - 1).toNat - 1))) :=
  ⟨(getCodeContext_window_spec.1 "" 1 1).1 (Or.inl rfl),
   (getCodeContext_window_spec.1 "a\nb\nc\nd\ne" 3 1).2
     (by decide) (by decide) (by decide)⟩

/-- C4: for every window size and every valid target line, the context window
consists of exactly min(windowSize, targetLine-1) +
min(windowSize, lineCount-targetLine) + 1 newline-separated lines. -/
theorem getCodeContext_exact_line_count :
    ∀ (fileText : String) (targetLine windowSize : Nat),
      1 ≤ targetLine → targetLine ≤ (splitNl fileText.data).length →
      (splitNl (getCodeContext fileText targetLine windowSize).data).length =
        min windowSize (targetLine - 1) +
          min windowSize ((splitNl fileText.data).length - targetLine) + 1 := by
  intro fileText t w ht1 ht2
  by_cases hft : fileText = ""
  · subst hft
    have hl : (splitNl ("" : String).data).length = 1 := rfl
    rw [hl] at ht2
    have ht : t = 1 := by omega
    subst ht
    have hres : getCodeContext "" ((1 : Nat) : Int) ((w : Nat) : Int) = "" := rfl
    rw [hres, hl]
    simp
  · have hL : 1 ≤ (splitNl fileText.data).length :=
      List.length_pos.mpr (splitNl_ne_nil _)
    have hc1 : ¬(fileText = "" ∨ ((t : Nat) : Int) ≤ 0) := by
      rintro (h | h)
      · exact hft h
      · omega
    have hc2 : ¬(((t : Nat) : Int) - 1 < 0 ∨
        ((splitNl fileText.data).length : Int) ≤ ((t : Nat) : Int) - 1) := by omega
    unfold getCodeContext
    dsimp only
    rw [if_neg hc1, if_neg hc2, data_mk,
      window_slice_eq (splitNl fileText.data) t w ht1 ht2]
    rw [splitNl_joinNl (List.ne_nil_of_length_pos (by rw [List.length_drop, List.length_take]; omega))
      (fun x hx => no_newline_of_mem_splitNl (List.mem_of_mem_take (List.mem_of_mem_drop hx)))]
    rw [List.length_drop, List.length_take]
    omega

/-- C4 witness: the theorem applied at file text "a\nb\nc\nd\ne", target
line 3, window size 1, where the window "b\nc\nd" has 1 + 1 + 1 = 3 lines. -/
theorem getCodeContext_exact_line_count_witness :
    (splitNl (getCodeContext "a\nb\nc\nd\ne" 3 1).data).length =
      min 1 (3 - 1) + min 1 ((splitNl ("a\nb\nc\nd\ne" : String).data).length - 3) + 1 :=
  getCodeContext_exact_line_count "a\nb\nc\nd\ne" 3 1 (by decide) (by decide)

/-- C5: the exact slice — for 1-indexed bounds, the verbatim lines
[startLine, endLine] inclusive joined by newline; the empty string when the
range is out of range (endLine beyond the line count); and for
startLine = endLine in range, exactly the one line obtained by indexing the
split directly. -/
theorem getOriginalCode_spec :
    ∀ (fileText : String) (startLine endLine : Int),
      (1 ≤ startLine → 1 ≤ endLine →
        endLine ≤ ((splitNl fileText.data).length : Int) →
        getOriginalCode startLine endLine fileText =
          String.mk (joinNl (((splitNl fileText.data).take endLine.toNat).drop
            (startLine - 1).toNat))) ∧
      (1 ≤ startLine → ((splitNl fileText.data).length : Int) < endLine →
        getOriginalCode startLine endLine fileText = "") ∧
      (1 ≤ startLine → startLine ≤ ((splitNl fileText.data).length : Int) →
        getOriginalCode startLine startLine fileText =
          String.mk ((splitNl fileText.data).getD (startLine - 1).toNat [])) := by
  intro fileText s e
  refine ⟨?_, ?_, ?_⟩
  · intro h1 h2 h3
    exact getOriginalCode_in_range fileText s e h1 h2 h3
  · intro h1 h2
    unfold getOriginalCode
    dsimp only
    rw [if_pos (Or.inr (by omega))]
  · intro h1 h2
    rw [getOriginalCode_in_range fileText s s h1 h1 h2]
    have hk : (s - 1).toNat < (splitNl fileText.data).length := by omega
    have hs : s.toNat = (s - 1).toNat + 1 := by omega
    have hcount : (s - 1).toNat + 1 - (s - 1).toNat = 1 := by omega
    rw [hs, List.drop_take, hcount, List.drop_eq_getElem_cons hk,
      List.take_succ_cons, List.take_zero, List.getD_eq_getElem _ _ hk]
    rfl

/-- C5 witness: the theorem applied at file text "a\nb\nc\nd" — the slice
[2,3] is "b\nc", the slice [1,5] is out of range and empty, and the slice
[2,2] is the single line at index 1. -/
theorem getOriginalCode_spec_witness :
    getOriginalCode 2 3 "a\nb\nc\nd" =
      String.mk (joinNl (((splitNl ("a\nb\nc\nd" : String).data).take (3 : Int).toNat).drop
        ((2 : Int) - 1).toNat)) ∧
    getOriginalCode 1 5 "a\nb\nc\nd" = "" ∧
    getOriginalCode 2 2 "a\nb\nc\nd" =
      String.mk ((splitNl ("a\nb\nc\nd" : String).data).getD ((2 : Int) - 1).toNat []) :=
  ⟨(getOriginalCode_spec "a\nb\nc\nd" 2 3).1 (by decide) (by decide) (by decide),
   (getOriginalCode_spec "a\nb\nc\nd" 1 5).2.1 (by decide) (by decide),
   (getOriginalCode_spec "a\nb\nc\nd" 2 2).2.2 (by decide) (by decide)⟩

/-- C8 counterexample: the claim as stated fails — for the response whose
unique rationale line is "Rationale: ok " (trailing space), the reply body
handed to the posting operation does not contain that line verbatim, because
the parser trims the captured rationale text; the response is well formed
(its first fenced block is extracted and exactly one of its lines begins with
"Rationale:"), and the response contains "Rationale: ok " while the body does
not. -/
theorem roundtrip_counterexample :
    (splitNl trailingSpaceResp.data).countP
      (fun l => "Rationale:".data.isPrefixOf l) = 1 ∧
    extractFencedSuggestion trailingSpaceResp = some "```suggestion\nx\n```" ∧
    jsIncludes trailingSpaceResp "Rationale: ok " = true ∧
    jsIncludes (postedBody (azureParseResponse trailingSpaceResp).suggestionMarkdown
      (suggestionExplanation (azureParseResponse trailingSpaceResp)))
      "Rationale: ok " = false :=
  ⟨by decide, by decide, by decide, by decide⟩

/-- C8 (amended): for a response in which the parser finds a fenced
"suggestion" block m and a rationale capture whose trimmed form is non-empty,
the reply body handed to the posting operation is exactly the rationale line
built from the trimmed capture, a newline, and m: the fenced block is a
verbatim substring of the model response preserved verbatim in the body with
no reformatting, and the rationale text is preserved verbatim whenever it
carries no surrounding whitespace (the parser trims the capture before
posting). -/
theorem roundtrip_amended :
    ∀ (resp m rcap : String),
      extractFencedSuggestion resp = some m →
      extractRationale resp = some rcap →
      jsTrim rcap ≠ "" →
      postedBody (azureParseResponse resp).suggestionMarkdown
          (suggestionExplanation (azureParseResponse resp)) =
        ("Rationale: " ++ jsTrim rcap) ++ "\n" ++ m ∧
      m.data <:+: resp.data ∧
      jsIncludes (postedBody (azureParseResponse resp).suggestionMarkdown
          (suggestionExplanation (azureParseResponse resp))) m = true ∧
      (jsTrim rcap = rcap →
        jsIncludes (postedBody (azureParseResponse resp).suggestionMarkdown
            (suggestionExplanation (azureParseResponse resp)))
          ("Rationale: " ++ rcap) = true) := by
  intro resp m rcap hm hr htrim
  have hres : azureParseResponse resp =
      { suggestionMarkdown := m, rationale := some (jsTrim rcap), error := none } := by
    simp [azureParseResponse, hm, hr]
  have hexp : suggestionExplanation
      { suggestionMarkdown := m, rationale := some (jsTrim rcap), error := none } =
      some ("Rationale: " ++ jsTrim rcap) := by
    simp [suggestionExplanation, jsStrTruthy, htrim]
  rw [hres]
  dsimp only
  rw [hexp]
  have hbody : postedBody m (some ("Rationale: " ++ jsTrim rcap)) =
      ("Rationale: " ++ jsTrim rcap) ++ "\n" ++ m := rfl
  rw [hbody]
  refine ⟨rfl, (extractFenced_shape hm).2, ?_, ?_⟩
  · have hsuf : m.data <:+ (("Rationale: " ++ jsTrim rcap) ++ "\n" ++ m).data := by
      rw [String.data_append]
      exact ⟨_, rfl⟩
    exact jsIncludes_of_infix hsuf.isInfix
  · intro htr
    rw [htr]
    have hpre : ("Rationale: " ++ rcap).data <+:
        (("Rationale: " ++ rcap) ++ "\n" ++ m).data := by
      rw [String.append_assoc, String.data_append]
      exact ⟨_, rfl⟩
    exact jsIncludes_of_infix hpre.isInfix

/-- C8 witness: the amended theorem applied to a well-formed response with
one fenced block and the rationale line "Rationale: tidy". -/
theorem roundtrip_amended_witness :
    postedBody (azureParseResponse wellFormedResp).suggestionMarkdown
        (suggestionExplanation (azureParseResponse wellFormedResp)) =
      ("Rationale: " ++ jsTrim "tidy") ++ "\n" ++ "```suggestion\nconst x = 1;\n```" ∧
    jsIncludes (postedBody (azureParseResponse wellFormedResp).suggestionMarkdown
        (suggestionExplanation (azureParseResponse wellFormedResp)))
      ("Rationale: " ++ "tidy") = true := by
  have h := roundtrip_amended wellFormedResp "```suggestion\nconst x = 1;\n```" "tidy"
    (by decide) (by decide) (by decide)
  exact ⟨h.1, h.2.2.2 (by decide)⟩
